import Mathlib

/-!
Verification development for the WorldPosta authentication proxy.

The definitions below are a shallow embedding of the proxy's source:

* `src/auth/engine.py` — `AuthResult`, `AuthEngine._parse_password`,
  the factor dispatch inside `AuthEngine.authenticate`,
  `AuthEngine.authenticate_push`, `AuthEngine.authenticate`.
* `src/api/worldposta_client.py` — `PushStatus`, `WorldPostaClient.wait_for_push`,
  `WorldPostaClient.authenticate_push`, the timeout handling.
* `src/auth/ad_client.py` — `ADClient._get_user_dn`, `ADClient.authenticate`.
* `src/radius/server.py` — the pending map, `RADIUSServer._is_duplicate`,
  `_mark_pending`, `_clear_pending`, `_cleanup_pending`, `_handle_auth_request`.
* `src/ldap/server.py` — `WorldPostaLDAPServer._is_exempt_from_2fa`,
  `_extract_username`, `_convert_filter`, `handle_LDAPBindRequest`.
* `src/config.py` — the configuration records consumed by the above.

Network and directory responses are modelled as explicit environment values:
each latency-bearing call (directory bind, push send, status polls) is a field
of an environment record holding the answer the external system would give.
The sequence of `check_push_status` answers obtainable before the wall-clock
deadline is modelled as a finite list (its length is the number of polls that
fit into the configured timeout window).
-/

/-- `AuthResult` enum from `src/auth/engine.py`. -/
inductive AuthResult where
  | success
  | primary_failed
  | push_failed
  | push_denied
  | push_timeout
  | otp_invalid
  | user_not_found
  | error
  deriving DecidableEq, Repr

/-- `AuthResult.value` — the string payload of each Python enum member. -/
def AuthResult.value : AuthResult → String
  | .success => "success"
  | .primary_failed => "primary_failed"
  | .push_failed => "push_failed"
  | .push_denied => "push_denied"
  | .push_timeout => "push_timeout"
  | .otp_invalid => "otp_invalid"
  | .user_not_found => "user_not_found"
  | .error => "error"

/-- `PushStatus` enum from `src/api/worldposta_client.py`. -/
inductive PushStatus where
  | pending
  | approved
  | denied
  | expired
  | error
  deriving DecidableEq, Repr

/-- `AuthEngine._parse_password` (`src/auth/engine.py`):
`password.rsplit(",", 1)` when a comma is present, else factor `None`. -/
def parse_password (password : String) : String × Option String :=
  let cs := password.data
  if ',' ∈ cs then
    -- rsplit(",", 1): everything after the last comma is the factor
    let rev := cs.reverse
    let factor := (rev.takeWhile (fun c => c != ',')).reverse
    let before := ((rev.dropWhile (fun c => c != ',')).drop 1).reverse
    (String.mk before, some (String.mk factor))
  else
    (password, none)

/-- Outcome of the factor-dispatch block in `AuthEngine.authenticate`
(`src/auth/engine.py`, the `if factor: ... elif mode == ...` chain):
either a flow is selected or the method returns an error tuple early. -/
inductive FactorChoice where
  | pushFlow
  | otpFlow (code : String)
  | errorResult (msg : String)
  deriving DecidableEq, Repr

/-- Observation: is the dispatch outcome an early error return? -/
def FactorChoice.isErrorResult : FactorChoice → Bool
  | .errorResult _ => true
  | _ => false

/-- The factor-dispatch chain of `AuthEngine.authenticate`.
`if factor:` is Python truthiness: both `None` and `""` take the mode branch. -/
def dispatch2FA (factor : Option String) (mode : String) : FactorChoice :=
  let f := factor.getD ""
  if f ≠ "" then
    -- factor.lower() == "push", on the character list
    if f.data.map Char.toLower = ['p', 'u', 's', 'h'] then .pushFlow
    -- factor.isdigit() and len(factor) >= 6; digits modelled as ASCII digits
    else if f.data.all Char.isDigit ∧ 6 ≤ f.length then .otpFlow f
    else .errorResult ("Unknown factor: " ++ f)
  else if mode = "push" then .pushFlow
  else if mode = "otp" then .errorResult "OTP code required"
  else .pushFlow

/-- Environment for one push authentication: the answer of
`WorldPostaClient.send_push` (`None` on failure, else the request id) and the
successive `check_push_status` answers obtainable before the deadline. -/
structure PushEnv where
  sendPushResult : Option String
  polls : List PushStatus

/-- `WorldPostaClient.wait_for_push` (`src/api/worldposta_client.py`):
poll until approved / denied / expired; `pending` and `error` polls continue;
an exhausted deadline yields `expired`. -/
def wait_for_push : List PushStatus → PushStatus
  | [] => .expired
  | s :: rest =>
    match s with
    | .approved => .approved
    | .denied => .denied
    | .expired => .expired
    | .pending => wait_for_push rest
    | .error => wait_for_push rest

/-- `WorldPostaClient` carries the configured timeout
(`AuthEngine.__init__` passes `api_config.push_timeout` as `timeout`). -/
structure WPClientModel where
  timeout : Nat

/-- `AuthEngine.__init__`: the client is built with `timeout=api_config.push_timeout`. -/
def mkApiClient (push_timeout : Nat) : WPClientModel :=
  ⟨push_timeout⟩

/-- `timeout = timeout or self.timeout` in `wait_for_push`: a missing (or zero,
by Python falsiness) argument selects the client's configured timeout. -/
def effective_wait_timeout (c : WPClientModel) (t : Option Nat) : Nat :=
  match t with
  | none => c.timeout
  | some v => if v = 0 then c.timeout else v

/-- `WorldPostaClient.authenticate_push`: send the push, then await it;
returns `True` iff the final status is approved. `if not request_id` is
Python truthiness, so an empty request id also counts as a send failure. -/
def client_authenticate_push (env : PushEnv) : Bool :=
  match env.sendPushResult with
  | none => false
  | some rid =>
    if rid = "" then false
    else wait_for_push env.polls = PushStatus.approved

/-- `AuthEngine.authenticate_push` (`src/auth/engine.py`):
`SUCCESS` when the client returns `True`, else `PUSH_TIMEOUT`. -/
def engine_authenticate_push (env : PushEnv) : AuthResult :=
  if client_authenticate_push env then .success else .push_timeout

/-- Environment for one complete `AuthEngine.authenticate` call: the primary
bind answer as a function of the submitted (real) password, the push
environment, and the `verify_otp` answer per code. -/
structure EngineEnv where
  primary : String → Bool × String
  push : PushEnv
  otpValid : String → Bool

/-- Final wrap-up of `AuthEngine.authenticate`: success gets the fixed message,
every other 2FA verdict gets `"2FA failed: " ++ value`. -/
def engine_finish (r : AuthResult) : AuthResult × String :=
  if r = .success then (.success, "Authentication successful")
  else (r, "2FA failed: " ++ r.value)

/-- `AuthEngine.authenticate` (`src/auth/engine.py`): parse the password,
run the primary bind, dispatch the factor, run the selected flow. -/
def engine_authenticate (env : EngineEnv) (password mode : String) :
    AuthResult × String :=
  let (realPw, factor) := parse_password password
  let (pOk, pMsg) := env.primary realPw
  if ¬ pOk then (.primary_failed, pMsg)
  else
    match dispatch2FA factor mode with
    | .errorResult msg => (.error, msg)
    | .pushFlow => engine_finish (engine_authenticate_push env.push)
    | .otpFlow code =>
      engine_finish (if env.otpValid code then .success else .otp_invalid)

/-- `RADIUSServerConfig` (`src/config.py`): the fields the request handler can
see. `fail_open` is parsed from the configuration file
(`options.get("fail_open", "false")`, default off). -/
structure RADIUSServerConfig where
  port : Nat
  mode : String
  fail_open : Bool

/-- Pending-map key, `f"{source[0]}:{source[1]}:{identifier}"`
(`RADIUSServer._is_duplicate` / `_mark_pending` / `_clear_pending`). -/
def radius_key (srcIp : String) (srcPort : Nat) (ident : Nat) : String :=
  srcIp ++ ":" ++ toString srcPort ++ ":" ++ toString ident

/-- The pending map `self.pending`, each key with its insertion timestamp. -/
structure RadiusState where
  pending : List (String × Nat)
  deriving DecidableEq, Repr

/-- `RADIUSServer._is_duplicate`: key membership in the pending map. -/
def is_duplicate (st : RadiusState) (key : String) : Bool :=
  st.pending.any (fun kv => kv.1 == key)

/-- `RADIUSServer._mark_pending`: record the key with the current time. -/
def mark_pending (st : RadiusState) (key : String) (now : Nat) : RadiusState :=
  ⟨(key, now) :: st.pending⟩

/-- `RADIUSServer._clear_pending`: `self.pending.pop(key, None)`. -/
def clear_pending (st : RadiusState) (key : String) : RadiusState :=
  ⟨st.pending.filter (fun kv => kv.1 != key)⟩

/-- `RADIUSServer._cleanup_pending`: evict entries older than 120 seconds. -/
def cleanup_pending (st : RadiusState) (now : Nat) : RadiusState :=
  ⟨st.pending.filter (fun kv => ¬ (now - kv.2 > 120))⟩

/-- The datagram the handler may send back: Access-Accept or Access-Reject,
each with its Reply-Message attribute. -/
inductive RadiusReply where
  | accept (msg : String)
  | reject (msg : String)
  deriving DecidableEq, Repr

/-- Result of one `RADIUSServer._handle_auth_request` run: the emitted reply
(`none` both for the duplicate early return `b""` and models no datagram being
sent), how many times `auth_engine.authenticate` ran, and the new state. -/
structure HandleOutcome where
  reply : Option RadiusReply
  authCalls : Nat
  state : RadiusState
  deriving Repr

/-- `RADIUSServer._handle_auth_request` (`src/radius/server.py`): duplicate
check, pending insert, engine call with `mode=self.config.mode`, encode
Access-Accept/Access-Reject, pending removal in the `finally`. The
configuration is in scope throughout; note that only `cfg.mode` is read. -/
def handle_auth_request (cfg : RADIUSServerConfig) (env : EngineEnv)
    (st : RadiusState) (now : Nat) (srcIp : String) (srcPort : Nat)
    (ident : Nat) (password : String) : HandleOutcome :=
  let key := radius_key srcIp srcPort ident
  if is_duplicate st key then
    ⟨none, 0, st⟩
  else
    let st1 := mark_pending st key now
    let rm := engine_authenticate env password cfg.mode
    let reply :=
      if rm.1 = .success then RadiusReply.accept "Authentication successful"
      else RadiusReply.reject rm.2
    ⟨some reply, 1, clear_pending st1 key⟩

/-- Answer of the service-bound search in `ADClient._get_user_dn`: exactly one
entry with its DN, several entries, none, or a raised exception. -/
inductive DNLookup where
  | found (dn : String)
  | multiple
  | zero
  | exc
  deriving DecidableEq, Repr

/-- `ADClient._get_user_dn` (`src/auth/ad_client.py`): the DN when exactly one
entry matched, `None` otherwise; the Bool records whether the multiple-match
warning (`logger.warning`) was emitted. -/
def get_user_dn (lookup : DNLookup) : Option String × Bool :=
  match lookup with
  | .found dn => (some dn, false)
  | .multiple => (none, true)
  | .zero => (none, false)
  | .exc => (none, false)

/-- Answer of the user bind attempted by `ADClient.authenticate`: success or
the exception text raised by `auto_bind`. -/
inductive UserBind where
  | ok
  | exc (msg : String)

/-- Substring classification used by `ADClient.authenticate` on the bind
error string (case-insensitive except the first pattern). -/
def classify_bind_error (msg : String) : String :=
  let low := msg.toLower
  if (msg.splitOn "invalidCredentials").length > 1 then "Invalid password"
  else if (low.splitOn "user name is invalid").length > 1 then "Invalid username"
  else if (low.splitOn "account disabled").length > 1 then "Account disabled"
  else if (low.splitOn "account expired").length > 1 then "Account expired"
  else if (low.splitOn "account locked").length > 1 then "Account locked"
  else "Authentication failed"

/-- `ADClient.authenticate` (`src/auth/ad_client.py`): empty password short
circuit, DN lookup, bind as the user, error classification. -/
def ad_authenticate (lookup : DNLookup) (bindResult : UserBind)
    (password : String) : Bool × String :=
  if password = "" then (false, "Password required")
  else
    match (get_user_dn lookup).1 with
    | none => (false, "User not found")
    | some _ =>
      match bindResult with
      | .ok => (true, "Authentication successful")
      | .exc msg => (false, classify_bind_error msg)

/-- The LDAP-binding configuration fields read by
`WorldPostaLDAPServer._is_exempt_from_2fa` (`self.config.exempt_primary_bind`
and `self.config.exempt_ous`). -/
structure LDAPBindingConfig where
  exempt_primary_bind : Bool
  exempt_ous : List String

/-- The directory-profile field read by the exemption check
(`self.ad_config.bind_dn`); the whole profile may be absent. -/
structure ADProfileModel where
  bind_dn : String

/-- Python `s.split("@")[0]`: the part before the first `@`. -/
def upn_local (cs : List Char) : List Char :=
  cs.takeWhile (fun c => c != '@')

/-- `WorldPostaLDAPServer._is_exempt_from_2fa` (`src/ldap/server.py`):
first-bind rule, service-account rule, exempt-OU rules, in source order.
Returns the decision together with the logged reason. -/
def is_exempt_from_2fa (cfg : LDAPBindingConfig) (ad : Option ADProfileModel)
    (first_bind_done : Bool) (dn : String) : Bool × String :=
  let dnLower := dn.data.map Char.toLower
  if cfg.exempt_primary_bind ∧ ¬ first_bind_done then
    (true, "exempt_primary_bind (first bind in connection)")
  else
    match ad with
    | some adCfg =>
      if adCfg.bind_dn ≠ "" then
        let serviceDn := adCfg.bind_dn.data.map Char.toLower
        if dnLower = serviceDn then (true, "service account (ad_client bind_dn)")
        else if '@' ∈ dnLower ∧ '@' ∈ serviceDn then
          if upn_local dnLower = upn_local serviceDn then
            (true, "service account (matching username)")
          else exempt_ou_scan cfg.exempt_ous dnLower
        else exempt_ou_scan cfg.exempt_ous dnLower
      else exempt_ou_scan cfg.exempt_ous dnLower
    | none => exempt_ou_scan cfg.exempt_ous dnLower
where
  /-- The `for exempt_dn in self.config.exempt_ous` loop. -/
  exempt_ou_scan : List String → List Char → Bool × String
  | [], _ => (false, "")
  | e :: rest, dnLower =>
    let eLower := e.data.map Char.toLower
    if dnLower = eLower then (true, "exempt_ou match: " ++ e)
    else if ('@' ∈ dnLower ∧ '@' ∈ eLower) ∧ upn_local dnLower = upn_local eLower then
      (true, "exempt_ou match (username): " ++ e)
    else if dnLower.reverse.take (eLower.length + 1) = (',' :: eLower).reverse then
      (true, "exempt_ou contains: " ++ e)
    else exempt_ou_scan rest dnLower

/-- Answer of the plain directory bind on the exempt path of
`handle_LDAPBindRequest` (`conn.bind()` true / false / raised). -/
inductive ExemptBindAnswer where
  | ok
  | invalid
  | exc (msg : String)

/-- Environment of one `handle_LDAPBindRequest` call: the exempt-path
directory answer and the 2FA-path engine answer (`none` models the engine
call raising). -/
structure BindEnv where
  exemptDir : ExemptBindAnswer
  engine : Option (AuthResult × String)

/-- `WorldPostaLDAPServer.handle_LDAPBindRequest` (`src/ldap/server.py`),
as a step on the per-connection flag `first_bind_done`, returning the bind
resultCode and the new flag. Anonymous binds answer 0 untouched; the exempt
path does a plain bind; the 2FA path runs the engine in `auto` mode;
exception paths answer 1 and do not reach the `first_bind_done` update. -/
def handle_bind (cfg : LDAPBindingConfig) (ad : Option ADProfileModel)
    (env : BindEnv) (first_bind_done : Bool) (dn password : String) :
    Nat × Bool :=
  if dn = "" ∨ password = "" then (0, first_bind_done)
  else if (is_exempt_from_2fa cfg ad first_bind_done dn).1 then
    match env.exemptDir with
    | .ok => (0, true)
    | .invalid => (49, true)
    | .exc _ => (1, first_bind_done)
  else
    match env.engine with
    | some (r, _) => if r = .success then (0, true) else (49, true)
    | none => (1, first_bind_done)

/-- `WorldPostaLDAPServer._extract_username` (`src/ldap/server.py`):
precedence CN= prefix, uid= prefix, UPN without `=`, `DOMAIN\\user`, verbatim.
The prefix checks inspect the lowercased DN; the value is cut from the
original (`dn.split(",")` / `dn.split("@")` / `dn.split("\\")`). -/
def extract_username (dn : String) : String :=
  let cs := dn.data
  let low := cs.map Char.toLower
  if low.take 3 = ['c', 'n', '='] then
    String.mk ((cs.takeWhile (fun c => c != ',')).drop 3)
  else if low.take 4 = ['u', 'i', 'd', '='] then
    String.mk ((cs.takeWhile (fun c => c != ',')).drop 4)
  else if '@' ∈ cs ∧ '=' ∉ cs then
    String.mk (cs.takeWhile (fun c => c != '@'))
  else if '\\' ∈ cs then
    String.mk ((cs.reverse.takeWhile (fun c => c != '\\')).reverse)
  else dn

/-- One component of an ldaptor substring filter
(`LDAPFilter_substrings_initial` / `_any` / `_final`). -/
inductive SubstringPart where
  | initial (s : String)
  | any (s : String)
  | final (s : String)
  deriving DecidableEq, Repr

mutual
/-- The ldaptor filter nodes handled by
`WorldPostaLDAPServer._convert_filter` (`src/ldap/server.py`), plus
`unrecognized` standing for any other class name hitting the fallback
branch. -/
inductive LDAPFilter where
  | and (fs : FilterList)
  | or (fs : FilterList)
  | not (f : LDAPFilter)
  | present (attr : String)
  | equalityMatch (attr assertionValue : String)
  | substrings (attrType : String) (subs : List SubstringPart)
  | greaterOrEqual (attr assertionValue : String)
  | lessOrEqual (attr assertionValue : String)
  | approxMatch (attr assertionValue : String)
  | unrecognized
  deriving DecidableEq, Repr
/-- The list of children of an AND/OR node. -/
inductive FilterList where
  | nil
  | cons (f : LDAPFilter) (fs : FilterList)
  deriving DecidableEq, Repr
end

/-- The per-component text of the substring loop in `_convert_filter`:
initial → `val*`, any → `*val*`, final → `*val`. -/
def subPart : SubstringPart → String
  | .initial s => s ++ "*"
  | .any s => "*" ++ s ++ "*"
  | .final s => "*" ++ s

mutual
/-- `WorldPostaLDAPServer._convert_filter`: serialize a filter node to
RFC 4515 text. The unrecognized fallback yields `(objectClass=*)`, and a
substring node with no components yields `(attr=*)`. -/
def convert_filter : LDAPFilter → String
  | .and fs => "(&" ++ convert_list fs ++ ")"
  | .or fs => "(|" ++ convert_list fs ++ ")"
  | .not f => "(!" ++ convert_filter f ++ ")"
  | .present a => "(" ++ a ++ "=*)"
  | .equalityMatch a v => "(" ++ a ++ "=" ++ v ++ ")"
  | .substrings a subs =>
    match subs with
    | [] => "(" ++ a ++ "=*)"
    | _ => "(" ++ a ++ "=" ++ String.join (subs.map subPart) ++ ")"
  | .greaterOrEqual a v => "(" ++ a ++ ">=" ++ v ++ ")"
  | .lessOrEqual a v => "(" ++ a ++ "<=" ++ v ++ ")"
  | .approxMatch a v => "(" ++ a ++ "~=" ++ v ++ ")"
  | .unrecognized => "(objectClass=*)"
/-- The `"".join(parts)` over serialized AND/OR children. -/
def convert_list : FilterList → String
  | .nil => ""
  | .cons f fs => convert_filter f ++ convert_list fs
end

/-- Modelled from the spec: characters an RFC 4515 attribute description may
contain in the deserializer below (no parentheses, no operators, no star, no
backslash, no AND/OR/NOT markers). The repository has no deserializer; §4.6
of the spec only states that filters are "serialized to RFC 4515 text". -/
def isAttrChar (c : Char) : Bool :=
  !(c = '(' || c = ')' || c = '*' || c = '\\' || c = '=' || c = '<' ||
    c = '>' || c = '~' || c = '&' || c = '|' || c = '!')

/-- Modelled from the spec: characters a plain assertion value may contain
without RFC 4515 escaping. -/
def isValueChar (c : Char) : Bool :=
  !(c = '(' || c = ')' || c = '*' || c = '\\')

/-- Modelled from the spec: raw equality-value characters; a star is allowed
here because it switches the node to present/substrings. -/
def isRawChar (c : Char) : Bool :=
  !(c = '(' || c = ')' || c = '\\')

/-- Split a character list on `*` (the RFC 4515 substring separators). -/
def splitOnStar : List Char → List (List Char)
  | [] => [[]]
  | c :: rest =>
    match splitOnStar rest with
    | [] => [[]]
    | seg :: segs => if c = '*' then [] :: seg :: segs else (c :: seg) :: segs

/-- Middle and final segments of a substring assertion: all but the last
become `any` components, a non-empty last segment becomes `final`. -/
def midAnys : List (List Char) → List SubstringPart
  | [] => []
  | [slast] => if slast = [] then [] else [SubstringPart.final (String.mk slast)]
  | s :: rest => SubstringPart.any (String.mk s) :: midAnys rest

/-- Segments of a substring assertion to components: a non-empty first
segment becomes `initial`, the rest go through `midAnys`. -/
def mkParts : List (List Char) → List SubstringPart
  | [] => []
  | s0 :: rest =>
    (if s0 = [] then [] else [SubstringPart.initial (String.mk s0)]) ++ midAnys rest

/-- Modelled from the spec: read one `attr op value` filter body (already past
the opening parenthesis), consuming the closing parenthesis. -/
def parseSimple (l : List Char) : Option (LDAPFilter × List Char) :=
  let attr := l.takeWhile isAttrChar
  if attr = [] then none
  else
    match l.drop attr.length with
    | '>' :: '=' :: r2 => parseOpValue r2 (LDAPFilter.greaterOrEqual (String.mk attr))
    | '<' :: '=' :: r2 => parseOpValue r2 (LDAPFilter.lessOrEqual (String.mk attr))
    | '~' :: '=' :: r2 => parseOpValue r2 (LDAPFilter.approxMatch (String.mk attr))
    | '=' :: r2 => parseEqValue (String.mk attr) r2
    | _ => none
where
  /-- Read a plain assertion value and the closing parenthesis. -/
  parseOpValue (l : List Char) (k : String → LDAPFilter) :
      Option (LDAPFilter × List Char) :=
    let v := l.takeWhile isValueChar
    match l.drop v.length with
    | ')' :: r => some (k (String.mk v), r)
    | _ => none
  /-- Read the raw text after `attr=` up to the closing parenthesis and decide
  between present, substrings and equality. -/
  parseEqValue (a : String) (r2 : List Char) : Option (LDAPFilter × List Char) :=
    let raw := r2.takeWhile isRawChar
    match r2.drop raw.length with
    | ')' :: r3 =>
      if raw = ['*'] then some (LDAPFilter.present a, r3)
      else if '*' ∈ raw then
        some (LDAPFilter.substrings a (mkParts (splitOnStar raw)), r3)
      else some (LDAPFilter.equalityMatch a (String.mk raw), r3)
    | _ => none

mutual
/-- Modelled from the spec: recursive-descent RFC 4515 reader for one
parenthesized filter. The fuel argument bounds recursion depth; every
recursive call consumes at least one input character first, so fuel beyond
the input length never runs out. -/
def parseFilter : Nat → List Char → Option (LDAPFilter × List Char)
  | 0, _ => none
  | _ + 1, [] => none
  | fuel + 1, c0 :: rest =>
    if c0 = '(' then
      match rest with
      | [] => none
      | c :: r2 =>
        if c = '&' then
          match parseList fuel r2 with
          | some (fs, r3) => some (LDAPFilter.and fs, r3)
          | none => none
        else if c = '|' then
          match parseList fuel r2 with
          | some (fs, r3) => some (LDAPFilter.or fs, r3)
          | none => none
        else if c = '!' then
          match parseFilter fuel r2 with
          | some (f, ')' :: r3) => some (LDAPFilter.not f, r3)
          | _ => none
        else parseSimple (c :: r2)
    else none
def parseList : Nat → List Char → Option (FilterList × List Char)
  | 0, _ => none
  | _ + 1, [] => none
  | fuel + 1, c0 :: rest =>
    if c0 = ')' then some (FilterList.nil, rest)
    else
      match parseFilter fuel (c0 :: rest) with
      | some (f, r2) =>
        match parseList fuel r2 with
        | some (fs, r3) => some (FilterList.cons f fs, r3)
        | none => none
      | none => none
end

/-- Modelled from the spec: deserialization of RFC 4515 filter text, the
inverse reader of `convert_filter`; succeeds only when the whole input is one
filter. -/
def deserialize (s : String) : Option LDAPFilter :=
  match parseFilter (s.length + 1) s.data with
  | some (f, []) => some f
  | _ => none

/-- Attribute descriptions under which the round trip can hold: non-empty and
free of filter-special characters. -/
def attrOk (a : String) : Bool :=
  a ≠ "" && a.data.all isAttrChar

/-- Assertion values under which the round trip can hold: free of
`( ) * \` (the characters RFC 4515 would require to be escaped, which
`_convert_filter` never does). -/
def valueOk (v : String) : Bool :=
  v.data.all isValueChar

/-- A substring component under which the round trip can hold. -/
def partOk : SubstringPart → Bool
  | .initial s => s ≠ "" && s.data.all isValueChar
  | .any s => s ≠ "" && s.data.all isValueChar
  | .final s => s ≠ "" && s.data.all isValueChar

mutual
/-- Well-formed filters: the fragment on which serialization is invertible.
Substring nodes must have exactly one component because the serializer joins
adjacent components with doubled stars; `unrecognized` is excluded because
its fallback text denotes a presence filter. -/
def wfFilter : LDAPFilter → Bool
  | .and fs => wfList fs
  | .or fs => wfList fs
  | .not f => wfFilter f
  | .present a => attrOk a
  | .equalityMatch a v => attrOk a && valueOk v
  | .substrings a subs =>
    attrOk a &&
      (match subs with
       | [p] => partOk p
       | _ => false)
  | .greaterOrEqual a v => attrOk a && valueOk v
  | .lessOrEqual a v => attrOk a && valueOk v
  | .approxMatch a v => attrOk a && valueOk v
  | .unrecognized => false
/-- Well-formedness of every member of a child list. -/
def wfList : FilterList → Bool
  | .nil => true
  | .cons f fs => wfFilter f && wfList fs
end

theorem char_toNat_ofNat {n : Nat} (h : n.isValidChar) :
    (Char.ofNat n).toNat = n := by
  rw [Char.ofNat, dif_pos h]
  simp [Char.ofNatAux, Char.toNat, UInt32.toNat]

/-- `Char.toLower` only moves basic latin capitals into `[97, 122]`; a result
outside that range forces the input to be the output itself. -/
theorem char_eq_of_toLower_eq {c d : Char}
    (hd : d.toNat < 97 ∨ 122 < d.toNat) (h : c.toLower = d) : c = d := by
  simp only [Char.toLower] at h
  split at h
  · exfalso
    rename_i hc
    have hvalid : (c.toNat + 32).isValidChar := by
      constructor
      omega
    have := congrArg Char.toNat h
    rw [char_toNat_ofNat hvalid] at this
    omega
  · exact h

theorem takeWhile_append_stop {p : Char → Bool} (l : List Char) (c : Char)
    (r : List Char) (hl : ∀ x ∈ l, p x = true) (hc : p c = false) :
    (l ++ c :: r).takeWhile p = l := by
  induction l with
  | nil => simp [List.takeWhile, hc]
  | cons a t ih =>
    have ha : p a = true := hl a (by simp)
    simp only [List.cons_append, List.takeWhile, ha, List.append_eq]
    rw [ih (fun x hx => hl x (by simp [hx]))]

theorem dropWhile_append_stop {p : Char → Bool} (l : List Char) (c : Char)
    (r : List Char) (hl : ∀ x ∈ l, p x = true) (hc : p c = false) :
    (l ++ c :: r).dropWhile p = c :: r := by
  induction l with
  | nil => simp [List.dropWhile, hc]
  | cons a t ih =>
    have ha : p a = true := hl a (by simp)
    simp only [List.cons_append, List.dropWhile, ha, List.append_eq]
    exact ih (fun x hx => hl x (by simp [hx]))

/-- C7: password parsing splits on the last comma when one is present,
yielding (text before it, text after it); with no comma the factor is `none`;
`parse("x,push") = ("x","push")`, `parse("a,b,push") = ("a,b","push")`,
`parse("x") = ("x", none)`. -/
theorem C7_parse_password_last_comma :
    (∀ b f : List Char, ',' ∉ f →
      parse_password (String.mk (b ++ ',' :: f)) =
        (String.mk b, some (String.mk f)))
  ∧ (∀ p : String, ',' ∉ p.data → parse_password p = (p, none))
  ∧ parse_password "x,push" = ("x", some "push")
  ∧ parse_password "a,b,push" = ("a,b", some "push")
  ∧ parse_password "x" = ("x", none) := by
  refine ⟨?_, ?_, by decide, by decide, by decide⟩
  · intro b f hf
    have hmem : ',' ∈ (String.mk (b ++ ',' :: f)).data := by simp
    have hrev : (b ++ ',' :: f).reverse = f.reverse ++ ',' :: b.reverse := by
      simp
    have hall : ∀ x ∈ f.reverse, (x != ',') = true := by
      intro x hx
      simp only [List.mem_reverse] at hx
      simp only [bne_iff_ne, ne_eq]
      exact fun hxe => hf (hxe ▸ hx)
    have hstop : ((',' : Char) != ',') = false := by decide
    simp only [parse_password, hmem, if_true, ite_true]
    rw [hrev, takeWhile_append_stop _ _ _ hall hstop,
      dropWhile_append_stop _ _ _ hall hstop]
    simp
  · intro p hp
    simp [parse_password, hp]

/-- Witness for C7 at concrete inputs. -/
theorem C7_parse_password_last_comma_witness :
    parse_password (String.mk (['a', 'b'] ++ ',' :: ['p'])) =
      (String.mk ['a', 'b'], some (String.mk ['p']))
  ∧ parse_password "x" = ("x", none) :=
  ⟨C7_parse_password_last_comma.1 ['a', 'b'] ['p'] (by decide),
   C7_parse_password_last_comma.2.1 "x" (by decide)⟩

/-- C10: a password ending in a comma parses with the empty string as factor
(not `none`), and the engine's dispatch treats the empty factor exactly like
an absent one — in particular auto mode selects the push flow. -/
theorem C10_empty_factor_like_absent :
    parse_password "pw," = ("pw", some "")
  ∧ (∀ mode : String, dispatch2FA (some "") mode = dispatch2FA none mode)
  ∧ dispatch2FA (some "") "auto" = FactorChoice.pushFlow := by
  refine ⟨by decide, ?_, by decide⟩
  intro mode
  rfl

/-- C5 counterexample: with no factor and the (reachable) RADIUS mode
`"concat"`, the dispatch selects the push flow instead of returning an
"Unknown factor" error, so "any other combination → error" fails. -/
theorem C5_counterexample_no_factor_concat :
    dispatch2FA none "concat" = FactorChoice.pushFlow
  ∧ (dispatch2FA none "concat").isErrorResult = false := by
  decide

/-- C5 (amended): a non-empty factor "push" (case-insensitively) selects the
push flow, as does an absent factor in mode auto or push; an all-digit factor
of length ≥ 6 selects the OTP flow; mode "otp" without a factor errors with
"OTP code required"; every other non-empty factor errors with
"Unknown factor: …" — in particular a 5-digit factor and "12345a" — while an
absent factor with any mode other than "push"/"otp" (e.g. "concat") falls
through to the push flow. -/
theorem C5_factor_dispatch (f mode : String) :
    (f ≠ "" → f.data.map Char.toLower = ['p', 'u', 's', 'h'] →
      dispatch2FA (some f) mode = FactorChoice.pushFlow)
  ∧ (dispatch2FA none "auto" = FactorChoice.pushFlow
      ∧ dispatch2FA none "push" = FactorChoice.pushFlow)
  ∧ (f ≠ "" → f.data.map Char.toLower ≠ ['p', 'u', 's', 'h'] →
      f.data.all Char.isDigit ∧ 6 ≤ f.length →
      dispatch2FA (some f) mode = FactorChoice.otpFlow f)
  ∧ dispatch2FA none "otp" = FactorChoice.errorResult "OTP code required"
  ∧ (f ≠ "" → f.data.map Char.toLower ≠ ['p', 'u', 's', 'h'] →
      ¬ (f.data.all Char.isDigit ∧ 6 ≤ f.length) →
      dispatch2FA (some f) mode = FactorChoice.errorResult ("Unknown factor: " ++ f))
  ∧ (mode ≠ "push" → mode ≠ "otp" → dispatch2FA none mode = FactorChoice.pushFlow)
  ∧ dispatch2FA (some "12345") "auto" = FactorChoice.errorResult "Unknown factor: 12345"
  ∧ dispatch2FA (some "12345a") "auto" = FactorChoice.errorResult "Unknown factor: 12345a"
  ∧ dispatch2FA (some "123456") "auto" = FactorChoice.otpFlow "123456" := by
  refine ⟨?_, ⟨by decide, by decide⟩, ?_, by decide, ?_, ?_,
    by decide, by decide, by decide⟩
  · intro h1 h2
    simp [dispatch2FA, h1, h2]
  · intro h1 h2 h3
    simp [dispatch2FA, h1, h2, h3]
  · intro h1 h2 h3
    simp only [List.all_eq_true] at h3
    simp [dispatch2FA, h1, h2]
    intro hall
    by_contra hge
    exact h3 ⟨hall, Nat.le_of_not_lt hge⟩
  · intro h1 h2
    simp [dispatch2FA, h1, h2]

/-- Witness for C5 (amended) at concrete inputs. -/
theorem C5_factor_dispatch_witness :
    dispatch2FA (some "PUSH") "concat" = FactorChoice.pushFlow
  ∧ dispatch2FA (some "654321") "concat" = FactorChoice.otpFlow "654321"
  ∧ dispatch2FA (some "bad") "concat" = FactorChoice.errorResult "Unknown factor: bad"
  ∧ dispatch2FA none "concat" = FactorChoice.pushFlow :=
  ⟨(C5_factor_dispatch "PUSH" "concat").1 (by decide) (by decide),
   (C5_factor_dispatch "654321" "concat").2.2.1 (by decide) (by decide) (by decide),
   (C5_factor_dispatch "bad" "concat").2.2.2.2.1 (by decide) (by decide) (by decide),
   (C5_factor_dispatch "x" "concat").2.2.2.2.2.1 (by decide) (by decide)⟩

/-- C1 counterexample: when `send_push` fails the engine returns
`push_timeout`, not `push_failed`; likewise a denied push yields
`push_timeout`, not `push_denied` (the client collapses every non-approved
outcome to `False`). -/
theorem C1_counterexample_push_mapping :
    engine_authenticate_push ⟨none, []⟩ = AuthResult.push_timeout
  ∧ engine_authenticate_push ⟨none, []⟩ ≠ AuthResult.push_failed
  ∧ engine_authenticate_push ⟨some "r1", [PushStatus.denied]⟩ = AuthResult.push_timeout
  ∧ engine_authenticate_push ⟨some "r1", [PushStatus.denied]⟩ ≠ AuthResult.push_denied := by
  decide

/-- C1 (amended): after a successful primary bind, the push flow returns
`push_timeout` when `send_push` fails; otherwise it awaits the push with
deadline equal to the configured push timeout and returns `success` exactly
when the final status is approved, `push_timeout` for every other final
status (denied, expired, or deadline reached). -/
theorem C1_push_flow (env : PushEnv) (pt : Nat) :
    (env.sendPushResult = none → engine_authenticate_push env = AuthResult.push_timeout)
  ∧ (∀ rid, env.sendPushResult = some rid → rid ≠ "" →
      engine_authenticate_push env =
        (if wait_for_push env.polls = PushStatus.approved then AuthResult.success
         else AuthResult.push_timeout))
  ∧ effective_wait_timeout (mkApiClient pt) none = pt
  ∧ (∀ rest, wait_for_push (PushStatus.approved :: rest) = PushStatus.approved)
  ∧ (∀ rest, wait_for_push (PushStatus.denied :: rest) = PushStatus.denied)
  ∧ (∀ rest, wait_for_push (PushStatus.expired :: rest) = PushStatus.expired)
  ∧ wait_for_push [] = PushStatus.expired := by
  refine ⟨?_, ?_, rfl, fun rest => rfl, fun rest => rfl, fun rest => rfl, rfl⟩
  · intro h
    simp [engine_authenticate_push, client_authenticate_push, h]
  · intro rid h hne
    by_cases hap : wait_for_push env.polls = PushStatus.approved
    · simp [engine_authenticate_push, client_authenticate_push, h, hne, hap]
    · simp [engine_authenticate_push, client_authenticate_push, h, hne, hap]

/-- Witness for C1 (amended) at concrete inputs. -/
theorem C1_push_flow_witness :
    engine_authenticate_push ⟨none, [PushStatus.approved]⟩ = AuthResult.push_timeout
  ∧ engine_authenticate_push ⟨some "r1", [PushStatus.pending, PushStatus.approved]⟩ =
      (if wait_for_push [PushStatus.pending, PushStatus.approved] = PushStatus.approved
       then AuthResult.success else AuthResult.push_timeout) :=
  ⟨(C1_push_flow ⟨none, [PushStatus.approved]⟩ 60).1 rfl,
   (C1_push_flow ⟨some "r1", [PushStatus.pending, PushStatus.approved]⟩ 60).2.1
     "r1" rfl (by decide)⟩

/-- C2: the fail-open flag is parsed but never consulted by the RADIUS
request handler — its outcome is identical for both flag values — and at the
concrete failing input (fail_open set, primary bind succeeds, cloud
unreachable so `send_push` fails) the handler emits Access-Reject instead of
the accept the claim requires. -/
theorem C2_fail_open_never_consulted :
    (∀ (port : Nat) (mode : String) (env : EngineEnv) (st : RadiusState)
       (now : Nat) (srcIp : String) (srcPort : Nat) (ident : Nat) (pw : String),
      handle_auth_request ⟨port, mode, true⟩ env st now srcIp srcPort ident pw =
        handle_auth_request ⟨port, mode, false⟩ env st now srcIp srcPort ident pw)
  ∧ (handle_auth_request ⟨1812, "auto", true⟩
        ⟨fun _ => (true, "Authentication successful"), ⟨none, []⟩, fun _ => false⟩
        ⟨[]⟩ 0 "10.0.0.1" 50000 7 "pw").reply =
      some (RadiusReply.reject "2FA failed: push_timeout") := by
  refine ⟨?_, by decide⟩
  intro port mode env st now srcIp srcPort ident pw
  rfl

theorem filter_key_any_false (l : List (String × Nat)) (k : String) :
    (l.filter (fun kv => kv.1 != k)).any (fun kv => kv.1 == k) = false := by
  rw [List.any_eq_false]
  intro kv hkv
  have := (List.mem_filter.mp hkv).2
  simpa using this

/-- C4: a request whose key is already pending is dropped with no reply, no
engine call and no state change; a fresh request runs exactly one
authentication, emits exactly one reply, and its key is gone from the pending
map after the final response; the sweep evicts exactly the entries older than
120 seconds. -/
theorem C4_radius_duplicate_suppression (cfg : RADIUSServerConfig)
    (env : EngineEnv) (st : RadiusState) (now : Nat) (srcIp : String)
    (srcPort : Nat) (ident : Nat) (pw : String) :
    (is_duplicate st (radius_key srcIp srcPort ident) = true →
      handle_auth_request cfg env st now srcIp srcPort ident pw = ⟨none, 0, st⟩)
  ∧ (is_duplicate st (radius_key srcIp srcPort ident) = false →
      (handle_auth_request cfg env st now srcIp srcPort ident pw).authCalls = 1
      ∧ (handle_auth_request cfg env st now srcIp srcPort ident pw).reply.isSome = true
      ∧ is_duplicate (handle_auth_request cfg env st now srcIp srcPort ident pw).state
          (radius_key srcIp srcPort ident) = false)
  ∧ (∀ kv : String × Nat, kv ∈ (cleanup_pending st now).pending ↔
      kv ∈ st.pending ∧ now - kv.2 ≤ 120) := by
  refine ⟨?_, ?_, ?_⟩
  · intro hdup
    simp [handle_auth_request, hdup]
  · intro hdup
    refine ⟨?_, ?_, ?_⟩
    · simp [handle_auth_request, hdup]
    · simp [handle_auth_request, hdup]
    · simp only [handle_auth_request, hdup, Bool.false_eq_true, if_false]
      exact filter_key_any_false _ _
  · intro kv
    simp only [cleanup_pending, List.mem_filter, decide_eq_true_eq, gt_iff_lt,
      Nat.not_lt]

/-- Witness for C4 at a concrete pending map. -/
theorem C4_radius_duplicate_suppression_witness :
    handle_auth_request ⟨1812, "auto", false⟩
        ⟨fun _ => (false, "User not found"), ⟨none, []⟩, fun _ => false⟩
        ⟨[("10.0.0.1:50000:7", 3)]⟩ 5 "10.0.0.1" 50000 7 "pw" =
      ⟨none, 0, ⟨[("10.0.0.1:50000:7", 3)]⟩⟩
  ∧ (handle_auth_request ⟨1812, "auto", false⟩
        ⟨fun _ => (false, "User not found"), ⟨none, []⟩, fun _ => false⟩
        ⟨[]⟩ 5 "10.0.0.1" 50000 7 "pw").authCalls = 1 :=
  ⟨(C4_radius_duplicate_suppression ⟨1812, "auto", false⟩
      ⟨fun _ => (false, "User not found"), ⟨none, []⟩, fun _ => false⟩
      ⟨[("10.0.0.1:50000:7", 3)]⟩ 5 "10.0.0.1" 50000 7 "pw").1 (by decide),
   ((C4_radius_duplicate_suppression ⟨1812, "auto", false⟩
      ⟨fun _ => (false, "User not found"), ⟨none, []⟩, fun _ => false⟩
      ⟨[]⟩ 5 "10.0.0.1" 50000 7 "pw").2.1 (by decide)).1⟩

/-- C6 counterexample: a multiple-match lookup produces exactly the same
outcome as a zero-match lookup — `(False, "User not found")` — so the
multiple-match outcome is not distinct from not-found. -/
theorem C6_counterexample_multiple_matches :
    ad_authenticate DNLookup.multiple UserBind.ok "pw" = (false, "User not found")
  ∧ ad_authenticate DNLookup.zero UserBind.ok "pw" = (false, "User not found") := by
  decide

/-- C6 (amended): exactly one match is required — zero matches and multiple
matches both collapse to the `"User not found"` failure; multiple matches are
the only case that logs the warning; a unique match proceeds to the user
bind. -/
theorem C6_user_lookup (lookup : DNLookup) (bindResult : UserBind) (pw : String) :
    (lookup = DNLookup.zero → pw ≠ "" →
      ad_authenticate lookup bindResult pw = (false, "User not found"))
  ∧ (lookup = DNLookup.multiple → pw ≠ "" →
      ad_authenticate lookup bindResult pw = (false, "User not found")
      ∧ (get_user_dn lookup).2 = true)
  ∧ ((get_user_dn lookup).2 = true ↔ lookup = DNLookup.multiple)
  ∧ (∀ dn, lookup = DNLookup.found dn → pw ≠ "" → bindResult = UserBind.ok →
      ad_authenticate lookup bindResult pw = (true, "Authentication successful")) := by
  refine ⟨?_, ?_, ?_, ?_⟩
  · intro h hpw
    subst h
    simp [ad_authenticate, get_user_dn, hpw]
  · intro h hpw
    subst h
    simp [ad_authenticate, get_user_dn, hpw]
  · cases lookup <;> simp [get_user_dn]
  · intro dn h hpw hb
    subst h
    subst hb
    simp [ad_authenticate, get_user_dn, hpw]

/-- Witness for C6 (amended) at concrete inputs. -/
theorem C6_user_lookup_witness :
    ad_authenticate DNLookup.multiple UserBind.ok "secret" = (false, "User not found")
  ∧ ad_authenticate (DNLookup.found "CN=a,DC=x") UserBind.ok "secret" =
      (true, "Authentication successful") :=
  ⟨((C6_user_lookup DNLookup.multiple UserBind.ok "secret").2.1 rfl (by decide)).1,
   (C6_user_lookup (DNLookup.found "CN=a,DC=x") UserBind.ok "secret").2.2.2
     "CN=a,DC=x" rfl (by decide) rfl⟩

/-- C3 counterexample: with `exempt_primary_bind` set, a bind arriving after
the first (`first_bind_done = true`) as the service account is still treated
as exempt, so it does not traverse the 2FA path; and a non-anonymous bind
whose engine call raises ends terminally with resultCode 1 while leaving
`first_bind_done` false. -/
theorem C3_counterexample_exemption :
    (is_exempt_from_2fa ⟨true, []⟩ (some ⟨"svc@corp.local"⟩) true
        "svc@corp.local").1 = true
  ∧ (handle_bind ⟨false, []⟩ none ⟨ExemptBindAnswer.ok, none⟩ false
        "cn=alice,dc=x" "pw").1 = 1
  ∧ (handle_bind ⟨false, []⟩ none ⟨ExemptBindAnswer.ok, none⟩ false
        "cn=alice,dc=x" "pw").2 = false := by
  decide

/-- C3 (amended): with `exempt_primary_bind` set the first completed
non-anonymous bind of a connection is exempt; once `first_bind_done` holds
the flag is irrelevant and exemption reduces to the service-account and
exempt-OU rules; `first_bind_done` never reverts to false, is set by the
success (0) and invalid-credentials (49) terminal outcomes of non-anonymous
binds, and is left unchanged by anonymous binds and by error (resultCode 1)
outcomes. -/
theorem C3_first_bind_exemption (cfg : LDAPBindingConfig)
    (ad : Option ADProfileModel) (env : BindEnv) (fbd : Bool) (dn pw : String) :
    (cfg.exempt_primary_bind = true → (is_exempt_from_2fa cfg ad false dn).1 = true)
  ∧ (∀ b, is_exempt_from_2fa cfg ad true dn
        = is_exempt_from_2fa ⟨false, cfg.exempt_ous⟩ ad b dn)
  ∧ (fbd = true → (handle_bind cfg ad env fbd dn pw).2 = true)
  ∧ (dn = "" ∨ pw = "" → handle_bind cfg ad env fbd dn pw = (0, fbd))
  ∧ (dn ≠ "" → pw ≠ "" →
      ((handle_bind cfg ad env fbd dn pw).1 = 0
        ∨ (handle_bind cfg ad env fbd dn pw).1 = 49) →
      (handle_bind cfg ad env fbd dn pw).2 = true)
  ∧ (dn ≠ "" → pw ≠ "" → (handle_bind cfg ad env fbd dn pw).1 = 1 →
      (handle_bind cfg ad env fbd dn pw).2 = fbd) := by
  refine ⟨?_, ?_, ?_, ?_, ?_, ?_⟩
  · intro h
    simp [is_exempt_from_2fa, h]
  · intro b
    simp [is_exempt_from_2fa]
  · intro h
    subst h
    unfold handle_bind
    split
    · rfl
    · split
      · cases env.exemptDir <;> rfl
      · match env.engine with
        | none => rfl
        | some (r, m) =>
          by_cases hr : r = AuthResult.success <;> simp [hr]
  · intro h
    unfold handle_bind
    rw [if_pos h]
  · intro h1 h2 h3
    unfold handle_bind at h3 ⊢
    rw [if_neg (by simp [h1, h2])] at h3 ⊢
    revert h3
    split
    · cases env.exemptDir <;> simp
    · match env.engine with
      | none => simp
      | some (r, m) =>
        by_cases hr : r = AuthResult.success <;> simp [hr]
  · intro h1 h2 h3
    unfold handle_bind at h3 ⊢
    rw [if_neg (by simp [h1, h2])] at h3 ⊢
    revert h3
    split
    · cases env.exemptDir <;> simp
    · match env.engine with
      | none => simp
      | some (r, m) =>
        by_cases hr : r = AuthResult.success <;> simp [hr]

/-- Witness for C3 (amended) at concrete inputs. -/
theorem C3_first_bind_exemption_witness :
    (is_exempt_from_2fa ⟨true, []⟩ none false "cn=u,dc=x").1 = true
  ∧ (handle_bind ⟨true, []⟩ none ⟨ExemptBindAnswer.ok, none⟩ false
        "cn=u,dc=x" "pw").2 = true :=
  ⟨(C3_first_bind_exemption ⟨true, []⟩ none ⟨ExemptBindAnswer.ok, none⟩ false
      "cn=u,dc=x" "pw").1 rfl,
   (C3_first_bind_exemption ⟨true, []⟩ none ⟨ExemptBindAnswer.ok, none⟩ false
      "cn=u,dc=x" "pw").2.2.2.2.1 (by decide) (by decide) (Or.inl (by decide))⟩

theorem eq_mem_of_lower_take3 {l : List Char}
    (h : (l.map Char.toLower).take 3 = ['c', 'n', '=']) : '=' ∈ l := by
  match l with
  | [] => simp at h
  | [a] => simp at h
  | [a, b] => simp at h
  | a :: b :: c :: rest =>
    simp only [List.map_cons, List.take_succ_cons, List.take_zero,
      List.cons.injEq, and_true] at h
    have hc : c = '=' := char_eq_of_toLower_eq (by decide) h.2.2
    simp [hc]

theorem eq_mem_of_lower_take4 {l : List Char}
    (h : (l.map Char.toLower).take 4 = ['u', 'i', 'd', '=']) : '=' ∈ l := by
  match l with
  | [] => simp at h
  | [a] => simp at h
  | [a, b] => simp at h
  | [a, b, c] => simp at h
  | a :: b :: c :: d :: rest =>
    simp only [List.map_cons, List.take_succ_cons, List.take_zero,
      List.cons.injEq, and_true] at h
    have hd : d = '=' := char_eq_of_toLower_eq (by decide) h.2.2.2
    simp [hd]

theorem extract_username_fixed (s : String)
    (hc3 : (s.data.map Char.toLower).take 3 ≠ ['c', 'n', '='])
    (hc4 : (s.data.map Char.toLower).take 4 ≠ ['u', 'i', 'd', '='])
    (hat : ¬ ('@' ∈ s.data ∧ '=' ∉ s.data))
    (hbs : '\\' ∉ s.data) :
    extract_username s = s := by
  simp only [extract_username]
  rw [if_neg hc3, if_neg hc4, if_neg hat, if_neg hbs]

/-- C9 counterexample: on the DN `CN=a@b,DC=x` the extraction yields `a@b`,
and a second application strips further to `a`, so apply-twice differs from
apply-once. -/
theorem C9_counterexample_not_idempotent :
    extract_username "CN=a@b,DC=x" = "a@b"
  ∧ extract_username (extract_username "CN=a@b,DC=x") = "a"
  ∧ extract_username (extract_username "CN=a@b,DC=x") ≠
      extract_username "CN=a@b,DC=x" := by
  decide

/-- C9 (amended): DN-to-username extraction (precedence CN= prefix, uid=
prefix, `@` without `=`, backslash, verbatim) is idempotent on every DN whose
extracted username contains none of `@`, `\`, `=`; in general a second
application can strip again (see the counterexample). -/
theorem C9_extract_username_idempotent (dn : String)
    (h1 : '@' ∉ (extract_username dn).data)
    (h2 : '\\' ∉ (extract_username dn).data)
    (h3 : '=' ∉ (extract_username dn).data) :
    extract_username (extract_username dn) = extract_username dn := by
  refine extract_username_fixed _ ?_ ?_ ?_ h2
  · exact fun h => h3 (eq_mem_of_lower_take3 h)
  · exact fun h => h3 (eq_mem_of_lower_take4 h)
  · exact fun h => h1 h.1

/-- Witness for C9 (amended) at a concrete DN. -/
theorem C9_extract_username_idempotent_witness :
    extract_username (extract_username "CN=alice,OU=Users,DC=corp,DC=com") =
      extract_username "CN=alice,OU=Users,DC=corp,DC=com" :=
  C9_extract_username_idempotent "CN=alice,OU=Users,DC=corp,DC=com"
    (by decide) (by decide) (by decide)

theorem splitOnStar_ne_nil (l : List Char) : splitOnStar l ≠ [] := by
  cases l with
  | nil => simp [splitOnStar]
  | cons c t =>
    simp only [splitOnStar]
    split
    · simp
    · split <;> simp

theorem splitOnStar_no_star {l : List Char} (h : '*' ∉ l) :
    splitOnStar l = [l] := by
  induction l with
  | nil => rfl
  | cons c t ih =>
    have hc : ¬ (c = '*') := fun he => h (by simp [he])
    have ht : '*' ∉ t := fun hm => h (List.mem_cons_of_mem _ hm)
    simp [splitOnStar, ih ht, hc]

theorem splitOnStar_append {l : List Char} (r : List Char) (h : '*' ∉ l) :
    splitOnStar (l ++ '*' :: r) = l :: splitOnStar r := by
  induction l with
  | nil =>
    simp only [List.nil_append, splitOnStar]
    obtain ⟨seg, segs, hss⟩ : ∃ seg segs, splitOnStar r = seg :: segs := by
      cases hsr : splitOnStar r with
      | nil => exact absurd hsr (splitOnStar_ne_nil r)
      | cons a b => exact ⟨a, b, rfl⟩
    simp [hss]
  | cons c t ih =>
    have hc : ¬ (c = '*') := fun he => h (by simp [he])
    have ht : '*' ∉ t := fun hm => h (List.mem_cons_of_mem _ hm)
    simp only [List.cons_append, splitOnStar, List.append_eq, ih ht, hc, if_false]

theorem isRawChar_of_isValueChar {c : Char} (h : isValueChar c = true) :
    isRawChar c = true := by
  simp only [isValueChar, Bool.not_eq_true', Bool.or_eq_false_iff,
    decide_eq_false_iff_not] at h
  simp only [isRawChar, Bool.not_eq_true', Bool.or_eq_false_iff,
    decide_eq_false_iff_not]
  exact ⟨⟨h.1.1.1, h.1.1.2⟩, h.2⟩

theorem string_data_ne_nil {a : String} (h : a ≠ "") : a.data ≠ [] := by
  intro hd
  cases a
  simp only at hd
  subst hd
  exact h rfl

theorem attrOk_parts {a : String} (h : attrOk a = true) :
    a.data ≠ [] ∧ ∀ c ∈ a.data, isAttrChar c = true := by
  simp only [attrOk, Bool.and_eq_true, decide_eq_true_eq, List.all_eq_true] at h
  exact ⟨string_data_ne_nil h.1, h.2⟩

theorem valueOk_parts {v : String} (h : valueOk v = true) :
    ∀ c ∈ v.data, isValueChar c = true := by
  simpa [valueOk, List.all_eq_true] using h

theorem valueOk_no_star {v : String} (h : valueOk v = true) : '*' ∉ v.data := by
  intro hm
  have := valueOk_parts h '*' hm
  simp [isValueChar] at this

theorem parseOpValue_eq (v : String) (rest : List Char)
    (k : String → LDAPFilter) (hv : valueOk v = true) :
    parseSimple.parseOpValue (v.data ++ ')' :: rest) k = some (k v, rest) := by
  have hall : ∀ x ∈ v.data, isValueChar x = true := valueOk_parts hv
  have hstop : isValueChar ')' = false := by decide
  simp only [parseSimple.parseOpValue]
  rw [takeWhile_append_stop _ _ _ hall hstop, List.drop_left]
  rfl

theorem parseEqValue_star (a : String) (rest : List Char) :
    parseSimple.parseEqValue a ('*' :: ')' :: rest) =
      some (LDAPFilter.present a, rest) := rfl

theorem parseEqValue_plain (a v : String) (rest : List Char)
    (hv : valueOk v = true) :
    parseSimple.parseEqValue a (v.data ++ ')' :: rest) =
      some (LDAPFilter.equalityMatch a v, rest) := by
  have hall : ∀ x ∈ v.data, isRawChar x = true :=
    fun x hx => isRawChar_of_isValueChar (valueOk_parts hv x hx)
  have hstar : '*' ∉ v.data := valueOk_no_star hv
  simp only [parseSimple.parseEqValue]
  rw [takeWhile_append_stop _ _ _ hall (by decide), List.drop_left]
  show (if v.data = ['*'] then some (LDAPFilter.present a, rest)
        else if '*' ∈ v.data then
          some (LDAPFilter.substrings a (mkParts (splitOnStar v.data)), rest)
        else some (LDAPFilter.equalityMatch a (String.mk v.data), rest)) =
      some (LDAPFilter.equalityMatch a v, rest)
  rw [if_neg (fun h => hstar (by rw [h]; exact List.mem_singleton_self '*')),
    if_neg hstar]

theorem parseEqValue_part (a : String) (p : SubstringPart) (rest : List Char)
    (hp : partOk p = true) :
    parseSimple.parseEqValue a ((subPart p).data ++ ')' :: rest) =
      some (LDAPFilter.substrings a [p], rest) := by
  cases p with
  | initial s =>
    cases s with
    | mk sd =>
      simp only [partOk, Bool.and_eq_true, decide_eq_true_eq,
        List.all_eq_true] at hp
      have hne : sd ≠ [] := string_data_ne_nil hp.1
      have hstar : '*' ∉ sd := by
        intro hm
        have := hp.2 '*' hm
        simp [isValueChar] at this
      have hall : ∀ x ∈ sd ++ ['*'], isRawChar x = true := by
        intro x hx
        rcases List.mem_append.mp hx with hx | hx
        · exact isRawChar_of_isValueChar (hp.2 x hx)
        · simp only [List.mem_singleton] at hx
          subst hx
          decide
      show parseSimple.parseEqValue a ((sd ++ ['*']) ++ ')' :: rest) = _
      simp only [parseSimple.parseEqValue]
      rw [takeWhile_append_stop _ _ _ hall (by decide), List.drop_left]
      show (if sd ++ ['*'] = ['*'] then some (LDAPFilter.present a, rest)
            else if '*' ∈ sd ++ ['*'] then
              some (LDAPFilter.substrings a (mkParts (splitOnStar (sd ++ ['*']))), rest)
            else some (LDAPFilter.equalityMatch a (String.mk (sd ++ ['*'])), rest)) =
          some (LDAPFilter.substrings a [SubstringPart.initial (String.mk sd)], rest)
      rw [if_neg (fun h => hne (by
            have hlen := congrArg List.length h
            simp at hlen
            exact hlen)),
        if_pos (List.mem_append_right _ (by simp))]
      rw [splitOnStar_append [] hstar]
      simp [mkParts, midAnys, hne]
  | any s =>
    cases s with
    | mk sd =>
      simp only [partOk, Bool.and_eq_true, decide_eq_true_eq,
        List.all_eq_true] at hp
      have hne : sd ≠ [] := string_data_ne_nil hp.1
      have hstar : '*' ∉ sd := by
        intro hm
        have := hp.2 '*' hm
        simp [isValueChar] at this
      have hall : ∀ x ∈ '*' :: (sd ++ ['*']), isRawChar x = true := by
        intro x hx
        rcases List.mem_cons.mp hx with hx | hx
        · subst hx
          decide
        · rcases List.mem_append.mp hx with hx | hx
          · exact isRawChar_of_isValueChar (hp.2 x hx)
          · simp only [List.mem_singleton] at hx
            subst hx
            decide
      show parseSimple.parseEqValue a (('*' :: (sd ++ ['*'])) ++ ')' :: rest) = _
      simp only [parseSimple.parseEqValue]
      rw [takeWhile_append_stop _ _ _ hall (by decide), List.drop_left]
      show (if '*' :: (sd ++ ['*']) = ['*'] then some (LDAPFilter.present a, rest)
            else if '*' ∈ '*' :: (sd ++ ['*']) then
              some (LDAPFilter.substrings a
                (mkParts (splitOnStar ('*' :: (sd ++ ['*'])))), rest)
            else some (LDAPFilter.equalityMatch a
              (String.mk ('*' :: (sd ++ ['*']))), rest)) =
          some (LDAPFilter.substrings a [SubstringPart.any (String.mk sd)], rest)
      rw [if_neg (fun h => hne (by
            have htl := (List.cons.injEq _ _ _ _).mp h
            have := htl.2
            simpa using congrArg List.length this)),
        if_pos (List.mem_cons_self _ _)]
      rw [show ('*' :: (sd ++ ['*']) : List Char) = [] ++ '*' :: (sd ++ '*' :: []) from rfl,
        splitOnStar_append _ (by simp), splitOnStar_append [] hstar]
      simp [mkParts, midAnys, hne]
  | final s =>
    cases s with
    | mk sd =>
      simp only [partOk, Bool.and_eq_true, decide_eq_true_eq,
        List.all_eq_true] at hp
      have hne : sd ≠ [] := string_data_ne_nil hp.1
      have hstar : '*' ∉ sd := by
        intro hm
        have := hp.2 '*' hm
        simp [isValueChar] at this
      have hall : ∀ x ∈ '*' :: sd, isRawChar x = true := by
        intro x hx
        rcases List.mem_cons.mp hx with hx | hx
        · subst hx
          decide
        · exact isRawChar_of_isValueChar (hp.2 x hx)
      show parseSimple.parseEqValue a (('*' :: sd) ++ ')' :: rest) = _
      simp only [parseSimple.parseEqValue]
      rw [takeWhile_append_stop _ _ _ hall (by decide), List.drop_left]
      show (if '*' :: sd = ['*'] then some (LDAPFilter.present a, rest)
            else if '*' ∈ '*' :: sd then
              some (LDAPFilter.substrings a (mkParts (splitOnStar ('*' :: sd))), rest)
            else some (LDAPFilter.equalityMatch a (String.mk ('*' :: sd)), rest)) =
          some (LDAPFilter.substrings a [SubstringPart.final (String.mk sd)], rest)
      rw [if_neg (fun h => hne ((List.cons.injEq _ _ _ _).mp h).2),
        if_pos (List.mem_cons_self _ _)]
      rw [show ('*' :: sd : List Char) = [] ++ '*' :: sd from rfl,
        splitOnStar_append _ (by simp), splitOnStar_no_star hstar]
      simp [mkParts, midAnys, hne]

theorem attr_head_not_special {c : Char} (h : isAttrChar c = true) :
    ¬ c = '&' ∧ ¬ c = '|' ∧ ¬ c = '!' := by
  simp only [isAttrChar, Bool.not_eq_true', Bool.or_eq_false_iff,
    decide_eq_false_iff_not] at h
  exact ⟨h.1.1.2, h.1.2, h.2⟩

theorem parseSimple_attr_eq (a : String) (tail : List Char)
    (ha : attrOk a = true) :
    parseSimple (a.data ++ '=' :: tail) = parseSimple.parseEqValue a tail := by
  obtain ⟨hne, hall⟩ := attrOk_parts ha
  simp only [parseSimple]
  rw [takeWhile_append_stop _ _ _ hall (by decide), List.drop_left, if_neg hne]
  rfl

theorem parseSimple_attr_ge (a : String) (tail : List Char)
    (ha : attrOk a = true) :
    parseSimple (a.data ++ '>' :: '=' :: tail) =
      parseSimple.parseOpValue tail (LDAPFilter.greaterOrEqual a) := by
  obtain ⟨hne, hall⟩ := attrOk_parts ha
  simp only [parseSimple]
  rw [takeWhile_append_stop _ _ _ hall (by decide), List.drop_left, if_neg hne]
  rfl

theorem parseSimple_attr_le (a : String) (tail : List Char)
    (ha : attrOk a = true) :
    parseSimple (a.data ++ '<' :: '=' :: tail) =
      parseSimple.parseOpValue tail (LDAPFilter.lessOrEqual a) := by
  obtain ⟨hne, hall⟩ := attrOk_parts ha
  simp only [parseSimple]
  rw [takeWhile_append_stop _ _ _ hall (by decide), List.drop_left, if_neg hne]
  rfl

theorem parseSimple_attr_approx (a : String) (tail : List Char)
    (ha : attrOk a = true) :
    parseSimple (a.data ++ '~' :: '=' :: tail) =
      parseSimple.parseOpValue tail (LDAPFilter.approxMatch a) := by
  obtain ⟨hne, hall⟩ := attrOk_parts ha
  simp only [parseSimple]
  rw [takeWhile_append_stop _ _ _ hall (by decide), List.drop_left, if_neg hne]
  rfl

theorem parseFilter_simple (n : Nat) (c : Char) (r2 : List Char)
    (h1 : ¬ c = '&') (h2 : ¬ c = '|') (h3 : ¬ c = '!') :
    parseFilter (n + 1) ('(' :: c :: r2) = parseSimple (c :: r2) := by
  simp only [parseFilter]
  simp only [if_true, h1, h2, h3, if_false]

theorem convert_filter_head (f : LDAPFilter) :
    ∃ t, (convert_filter f).data = '(' :: t := by
  cases f with
  | substrings a subs =>
    cases subs with
    | nil => exact ⟨_, rfl⟩
    | cons p ps => exact ⟨_, rfl⟩
  | and fs => exact ⟨_, rfl⟩
  | or fs => exact ⟨_, rfl⟩
  | not f => exact ⟨_, rfl⟩
  | present a => exact ⟨_, rfl⟩
  | equalityMatch a v => exact ⟨_, rfl⟩
  | greaterOrEqual a v => exact ⟨_, rfl⟩
  | lessOrEqual a v => exact ⟨_, rfl⟩
  | approxMatch a v => exact ⟨_, rfl⟩
  | unrecognized => exact ⟨_, rfl⟩

theorem parseFilter_and_head (n : Nat) (r2 : List Char) :
    parseFilter (n + 1) ('(' :: '&' :: r2) =
      (match parseList n r2 with
       | some (fs, r3) => some (LDAPFilter.and fs, r3)
       | none => none) := rfl

theorem parseFilter_or_head (n : Nat) (r2 : List Char) :
    parseFilter (n + 1) ('(' :: '|' :: r2) =
      (match parseList n r2 with
       | some (fs, r3) => some (LDAPFilter.or fs, r3)
       | none => none) := rfl

theorem parseFilter_not_head (n : Nat) (r2 : List Char) :
    parseFilter (n + 1) ('(' :: '!' :: r2) =
      (match parseFilter n r2 with
       | some (f, ')' :: r3) => some (LDAPFilter.not f, r3)
       | _ => none) := rfl

mutual
theorem parse_convert_filter (f : LDAPFilter) (hw : wfFilter f = true)
    (rest : List Char) (n : Nat) (hn : (convert_filter f).data.length < n) :
    parseFilter n ((convert_filter f).data ++ rest) = some (f, rest) := by
  cases f with
  | unrecognized => exact absurd hw (by simp [wfFilter])
  | present a =>
    have ha : attrOk a = true := hw
    obtain ⟨hne, hall⟩ := attrOk_parts ha
    obtain ⟨c, cs, hcs⟩ : ∃ c cs, a.data = c :: cs := by
      cases hd : a.data with
      | nil => exact absurd hd hne
      | cons c cs => exact ⟨c, cs, rfl⟩
    obtain ⟨hc1, hc2, hc3⟩ :=
      attr_head_not_special (hall c (hcs ▸ List.mem_cons_self c cs))
    cases n with
    | zero => exact absurd hn (Nat.not_lt_zero _)
    | succ m =>
      show parseFilter (m + 1)
        ('(' :: ((a.data ++ ['=', '*', ')']) ++ rest)) = _
      rw [List.append_assoc]
      show parseFilter (m + 1)
        ('(' :: (a.data ++ '=' :: '*' :: ')' :: rest)) = _
      have hsplit : a.data ++ '=' :: '*' :: ')' :: rest =
          c :: (cs ++ '=' :: '*' :: ')' :: rest) := by
        rw [hcs]
        rfl
      rw [hsplit, parseFilter_simple m c _ hc1 hc2 hc3, ← hsplit,
        parseSimple_attr_eq a _ ha, parseEqValue_star]
  | equalityMatch a v =>
    have hw' : (attrOk a && valueOk v) = true := hw
    rw [Bool.and_eq_true] at hw'
    obtain ⟨ha, hv⟩ := hw'
    obtain ⟨hne, hall⟩ := attrOk_parts ha
    obtain ⟨c, cs, hcs⟩ : ∃ c cs, a.data = c :: cs := by
      cases hd : a.data with
      | nil => exact absurd hd hne
      | cons c cs => exact ⟨c, cs, rfl⟩
    obtain ⟨hc1, hc2, hc3⟩ :=
      attr_head_not_special (hall c (hcs ▸ List.mem_cons_self c cs))
    cases n with
    | zero => exact absurd hn (Nat.not_lt_zero _)
    | succ m =>
      show parseFilter (m + 1)
        ('(' :: ((((a.data ++ ['=']) ++ v.data) ++ [')']) ++ rest)) = _
      simp only [List.append_assoc]
      show parseFilter (m + 1)
        ('(' :: (a.data ++ '=' :: (v.data ++ ')' :: rest))) = _
      have hsplit : a.data ++ '=' :: (v.data ++ ')' :: rest) =
          c :: (cs ++ '=' :: (v.data ++ ')' :: rest)) := by
        rw [hcs]
        rfl
      rw [hsplit, parseFilter_simple m c _ hc1 hc2 hc3, ← hsplit,
        parseSimple_attr_eq a _ ha, parseEqValue_plain a v rest hv]
  | greaterOrEqual a v =>
    have hw' : (attrOk a && valueOk v) = true := hw
    rw [Bool.and_eq_true] at hw'
    obtain ⟨ha, hv⟩ := hw'
    obtain ⟨hne, hall⟩ := attrOk_parts ha
    obtain ⟨c, cs, hcs⟩ : ∃ c cs, a.data = c :: cs := by
      cases hd : a.data with
      | nil => exact absurd hd hne
      | cons c cs => exact ⟨c, cs, rfl⟩
    obtain ⟨hc1, hc2, hc3⟩ :=
      attr_head_not_special (hall c (hcs ▸ List.mem_cons_self c cs))
    cases n with
    | zero => exact absurd hn (Nat.not_lt_zero _)
    | succ m =>
      show parseFilter (m + 1)
        ('(' :: ((((a.data ++ ['>', '=']) ++ v.data) ++ [')']) ++ rest)) = _
      simp only [List.append_assoc]
      show parseFilter (m + 1)
        ('(' :: (a.data ++ '>' :: '=' :: (v.data ++ ')' :: rest))) = _
      have hsplit : a.data ++ '>' :: '=' :: (v.data ++ ')' :: rest) =
          c :: (cs ++ '>' :: '=' :: (v.data ++ ')' :: rest)) := by
        rw [hcs]
        rfl
      rw [hsplit, parseFilter_simple m c _ hc1 hc2 hc3, ← hsplit,
        parseSimple_attr_ge a _ ha, parseOpValue_eq v rest _ hv]
  | lessOrEqual a v =>
    have hw' : (attrOk a && valueOk v) = true := hw
    rw [Bool.and_eq_true] at hw'
    obtain ⟨ha, hv⟩ := hw'
    obtain ⟨hne, hall⟩ := attrOk_parts ha
    obtain ⟨c, cs, hcs⟩ : ∃ c cs, a.data = c :: cs := by
      cases hd : a.data with
      | nil => exact absurd hd hne
      | cons c cs => exact ⟨c, cs, rfl⟩
    obtain ⟨hc1, hc2, hc3⟩ :=
      attr_head_not_special (hall c (hcs ▸ List.mem_cons_self c cs))
    cases n with
    | zero => exact absurd hn (Nat.not_lt_zero _)
    | succ m =>
      show parseFilter (m + 1)
        ('(' :: ((((a.data ++ ['<', '=']) ++ v.data) ++ [')']) ++ rest)) = _
      simp only [List.append_assoc]
      show parseFilter (m + 1)
        ('(' :: (a.data ++ '<' :: '=' :: (v.data ++ ')' :: rest))) = _
      have hsplit : a.data ++ '<' :: '=' :: (v.data ++ ')' :: rest) =
          c :: (cs ++ '<' :: '=' :: (v.data ++ ')' :: rest)) := by
        rw [hcs]
        rfl
      rw [hsplit, parseFilter_simple m c _ hc1 hc2 hc3, ← hsplit,
        parseSimple_attr_le a _ ha, parseOpValue_eq v rest _ hv]
  | approxMatch a v =>
    have hw' : (attrOk a && valueOk v) = true := hw
    rw [Bool.and_eq_true] at hw'
    obtain ⟨ha, hv⟩ := hw'
    obtain ⟨hne, hall⟩ := attrOk_parts ha
    obtain ⟨c, cs, hcs⟩ : ∃ c cs, a.data = c :: cs := by
      cases hd : a.data with
      | nil => exact absurd hd hne
      | cons c cs => exact ⟨c, cs, rfl⟩
    obtain ⟨hc1, hc2, hc3⟩ :=
      attr_head_not_special (hall c (hcs ▸ List.mem_cons_self c cs))
    cases n with
    | zero => exact absurd hn (Nat.not_lt_zero _)
    | succ m =>
      show parseFilter (m + 1)
        ('(' :: ((((a.data ++ ['~', '=']) ++ v.data) ++ [')']) ++ rest)) = _
      simp only [List.append_assoc]
      show parseFilter (m + 1)
        ('(' :: (a.data ++ '~' :: '=' :: (v.data ++ ')' :: rest))) = _
      have hsplit : a.data ++ '~' :: '=' :: (v.data ++ ')' :: rest) =
          c :: (cs ++ '~' :: '=' :: (v.data ++ ')' :: rest)) := by
        rw [hcs]
        rfl
      rw [hsplit, parseFilter_simple m c _ hc1 hc2 hc3, ← hsplit,
        parseSimple_attr_approx a _ ha, parseOpValue_eq v rest _ hv]
  | substrings a subs =>
    cases subs with
    | nil => exact absurd hw (by simp [wfFilter])
    | cons p ps =>
      cases ps with
      | cons q qs => exact absurd hw (by simp [wfFilter])
      | nil =>
        have hw' : (attrOk a &&
            (match [p] with | [p] => partOk p | _ => false)) = true := hw
        rw [Bool.and_eq_true] at hw'
        obtain ⟨ha, hp⟩ := hw'
        have hp : partOk p = true := hp
        obtain ⟨hne, hall⟩ := attrOk_parts ha
        obtain ⟨c, cs, hcs⟩ : ∃ c cs, a.data = c :: cs := by
          cases hd : a.data with
          | nil => exact absurd hd hne
          | cons c cs => exact ⟨c, cs, rfl⟩
        obtain ⟨hc1, hc2, hc3⟩ :=
          attr_head_not_special (hall c (hcs ▸ List.mem_cons_self c cs))
        cases n with
        | zero => exact absurd hn (Nat.not_lt_zero _)
        | succ m =>
          show parseFilter (m + 1)
            ('(' :: ((((a.data ++ ['=']) ++ (subPart p).data) ++ [')']) ++ rest)) = _
          simp only [List.append_assoc]
          show parseFilter (m + 1)
            ('(' :: (a.data ++ '=' :: ((subPart p).data ++ ')' :: rest))) = _
          have hsplit : a.data ++ '=' :: ((subPart p).data ++ ')' :: rest) =
              c :: (cs ++ '=' :: ((subPart p).data ++ ')' :: rest)) := by
            rw [hcs]
            rfl
          rw [hsplit, parseFilter_simple m c _ hc1 hc2 hc3, ← hsplit,
            parseSimple_attr_eq a _ ha, parseEqValue_part a p rest hp]
  | and fs =>
    have hwl : wfList fs = true := hw
    have hlen : (convert_filter (LDAPFilter.and fs)).data.length =
        (convert_list fs).data.length + 3 := by
      show ((("(&".data ++ (convert_list fs).data) ++ ")".data)).length = _
      simp
    cases n with
    | zero => exact absurd hn (Nat.not_lt_zero _)
    | succ m =>
      show parseFilter (m + 1)
        ('(' :: '&' :: (((convert_list fs).data ++ [')']) ++ rest)) = _
      rw [List.append_assoc]
      show parseFilter (m + 1)
        ('(' :: '&' :: ((convert_list fs).data ++ ')' :: rest)) = _
      rw [parseFilter_and_head,
        parse_convert_list fs hwl rest m (by rw [hlen] at hn; omega)]
  | or fs =>
    have hwl : wfList fs = true := hw
    have hlen : (convert_filter (LDAPFilter.or fs)).data.length =
        (convert_list fs).data.length + 3 := by
      show ((("(|".data ++ (convert_list fs).data) ++ ")".data)).length = _
      simp
    cases n with
    | zero => exact absurd hn (Nat.not_lt_zero _)
    | succ m =>
      show parseFilter (m + 1)
        ('(' :: '|' :: (((convert_list fs).data ++ [')']) ++ rest)) = _
      rw [List.append_assoc]
      show parseFilter (m + 1)
        ('(' :: '|' :: ((convert_list fs).data ++ ')' :: rest)) = _
      rw [parseFilter_or_head,
        parse_convert_list fs hwl rest m (by rw [hlen] at hn; omega)]
  | not g =>
    have hwg : wfFilter g = true := hw
    have hlen : (convert_filter (LDAPFilter.not g)).data.length =
        (convert_filter g).data.length + 3 := by
      show ((("(!".data ++ (convert_filter g).data) ++ ")".data)).length = _
      simp
    cases n with
    | zero => exact absurd hn (Nat.not_lt_zero _)
    | succ m =>
      show parseFilter (m + 1)
        ('(' :: '!' :: (((convert_filter g).data ++ [')']) ++ rest)) = _
      rw [List.append_assoc]
      show parseFilter (m + 1)
        ('(' :: '!' :: ((convert_filter g).data ++ ')' :: rest)) = _
      rw [parseFilter_not_head,
        parse_convert_filter g hwg (')' :: rest) m (by rw [hlen] at hn; omega)]
      rfl
theorem parse_convert_list (fs : FilterList) (hw : wfList fs = true)
    (rest : List Char) (n : Nat)
    (hn : (convert_list fs).data.length + 1 < n) :
    parseList n ((convert_list fs).data ++ ')' :: rest) = some (fs, rest) := by
  cases fs with
  | nil =>
    cases n with
    | zero => exact absurd hn (Nat.not_lt_zero _)
    | succ m =>
      show parseList (m + 1) (')' :: rest) = _
      simp [parseList]
  | cons f fs =>
    have hw' : (wfFilter f && wfList fs) = true := hw
    rw [Bool.and_eq_true] at hw'
    obtain ⟨hwf, hwl⟩ := hw'
    cases n with
    | zero => exact absurd hn (Nat.not_lt_zero _)
    | succ m =>
      obtain ⟨t, hhead⟩ := convert_filter_head f
      have hlenf : 0 < (convert_filter f).data.length := by
        rw [hhead]
        simp
      have hlen : (convert_list (FilterList.cons f fs)).data.length =
          (convert_filter f).data.length + (convert_list fs).data.length := by
        show ((convert_filter f) ++ (convert_list fs)).data.length = _
        simp
      show parseList (m + 1)
        (((convert_filter f).data ++ (convert_list fs).data) ++ ')' :: rest) = _
      rw [List.append_assoc]
      have hshape : (convert_filter f).data ++ ((convert_list fs).data ++ ')' :: rest) =
          '(' :: (t ++ ((convert_list fs).data ++ ')' :: rest)) := by
        rw [hhead]
        rfl
      rw [hshape]
      simp only [parseList]
      rw [if_neg (by decide)]
      rw [← hshape]
      rw [parse_convert_filter f hwf ((convert_list fs).data ++ ')' :: rest) m
        (by rw [hlen] at hn; omega)]
      show (match parseList m ((convert_list fs).data ++ ')' :: rest) with
            | some (fs2, r3) => some (FilterList.cons f fs2, r3)
            | none => none) = some (FilterList.cons f fs, rest)
      rw [parse_convert_list fs hwl rest m (by rw [hlen] at hn; omega)]
end

/-- C8 counterexample: the serializer does not escape assertion values, so
the equality node with value `*` serializes to `(a=*)`, which deserializes as
the presence filter — the round trip does not hold for every supported
filter node. -/
theorem C8_counterexample_unescaped_value :
    convert_filter (LDAPFilter.equalityMatch "a" "*") = "(a=*)"
  ∧ deserialize (convert_filter (LDAPFilter.equalityMatch "a" "*")) =
      some (LDAPFilter.present "a")
  ∧ deserialize (convert_filter (LDAPFilter.equalityMatch "a" "*")) ≠
      some (LDAPFilter.equalityMatch "a" "*") := by
  decide

/-- C8 (amended): `deserialize (serialize f) = f` for every supported,
well-formed filter node — attribute descriptions non-empty and free of
filter-special characters, assertion values free of `( ) * \`, substring
nodes with exactly one component — and an unrecognized filter node
serializes to `(objectClass=*)`. -/
theorem C8_filter_roundtrip (f : LDAPFilter) (hw : wfFilter f = true) :
    deserialize (convert_filter f) = some f
  ∧ convert_filter LDAPFilter.unrecognized = "(objectClass=*)" := by
  refine ⟨?_, rfl⟩
  have h := parse_convert_filter f hw [] ((convert_filter f).data.length + 1)
    (Nat.lt_succ_self _)
  rw [List.append_nil] at h
  simp only [deserialize]
  rw [show (convert_filter f).length = (convert_filter f).data.length from rfl, h]

/-- Witness for C8 (amended) at a concrete well-formed filter. -/
theorem C8_filter_roundtrip_witness :
    deserialize (convert_filter (LDAPFilter.and (FilterList.cons
      (LDAPFilter.present "objectClass") (FilterList.cons
      (LDAPFilter.equalityMatch "sAMAccountName" "alice") FilterList.nil)))) =
      some (LDAPFilter.and (FilterList.cons (LDAPFilter.present "objectClass")
        (FilterList.cons (LDAPFilter.equalityMatch "sAMAccountName" "alice")
          FilterList.nil))) :=
  (C8_filter_roundtrip (LDAPFilter.and (FilterList.cons
    (LDAPFilter.present "objectClass") (FilterList.cons
    (LDAPFilter.equalityMatch "sAMAccountName" "alice") FilterList.nil)))
    (by decide)).1
